import Mathlib

/-!
Verification of the few-shot face classification pipeline
(`few_shot_face_classification`): label validation, embedding cache,
nearest-neighbour classification and batched export.

Embeddings are modelled as rational vectors.  The code compares Euclidean
distances against a non-negative threshold; since the Euclidean distance is
non-negative and monotone in its square, every comparison `dist <= thr` with
`thr >= 0` is represented here as `sqDist <= thr2` where `thr2` stands for
the square of the threshold.  Likewise the argmin of the distances equals the
argmin of the squared distances, so the selected reference is unchanged.
-/

namespace FSFC

/-- Equality of `Except` values is decidable componentwise (used to evaluate
the embedded functions on concrete inputs). -/
instance {ε α : Type} [DecidableEq ε] [DecidableEq α] : DecidableEq (Except ε α) :=
  fun a b =>
    match a, b with
    | Except.ok x, Except.ok y =>
      if h : x = y then Decidable.isTrue (by rw [h])
      else Decidable.isFalse (by intro he; cases he; exact h rfl)
    | Except.error x, Except.error y =>
      if h : x = y then Decidable.isTrue (by rw [h])
      else Decidable.isFalse (by intro he; cases he; exact h rfl)
    | Except.ok _, Except.error _ => Decidable.isFalse (by intro he; cases he)
    | Except.error _, Except.ok _ => Decidable.isFalse (by intro he; cases he)

/-- An embedding vector (the code holds fixed-length float vectors). -/
abbrev Emb := List ℚ

/-- Squared Euclidean distance between two embedding vectors, the square of
the distance computed by `sklearn.metrics.pairwise.euclidean_distances` in
`similarity.py` line 31. -/
def sqDist (a b : Emb) : ℚ :=
  (List.zipWith (fun x y => (x - y) ^ 2) a b).sum

/-- Modelled from the spec: a labeled reference file follows the filename
convention `<name>_<index>.<ext>` (`utils.get_class` and the path helpers are
not under src/, only their callers are).  The three components are kept as
separate fields. -/
structure LabeledPath where
  name : String
  idx : Nat
  ext : String
deriving DecidableEq

/-- Modelled from the spec: `utils.get_class` (not under src/) derives the
identity from the filename convention `<name>_<index>.<ext>`; the reserved
name `none` marks explicitly-negative exemplars and is excluded from
classification candidates, so no identity string is produced for it. -/
def get_class (p : LabeledPath) : Option String :=
  if p.name = "none" then none else some p.name

/-- First index attaining the minimum of a list, together with that minimum:
the combination of `min(d)` and `np.where(d == min(d))[0][0]` used in
`similarity.py` lines 37-38. -/
def argminF : List ℚ → Option (Nat × ℚ)
  | [] => none
  | x :: xs =>
    match argminF xs with
    | none => some (0, x)
    | some (j, m) => if x ≤ m then some (0, x) else some (j + 1, m)

/-- Errors raised by the similarity routines: `euclidean_distances` raises a
`ValueError` when either input array is empty. -/
inductive SimErr where
  | emptyInput
deriving DecidableEq

/-- The per-row selection of `similarity.get_classes` (lines 35-40): take the
class of the first reference attaining the minimum distance if that minimum
is within the threshold, otherwise no match. -/
def best_class (labeled_classes : List (Option String)) (d : List ℚ) (thr2 : ℚ) :
    Option String :=
  match argminF d with
  | none => none
  | some (j, m) => if m ≤ thr2 then labeled_classes.getD j none else none

/-- `similarity.get_classes` (lines 13-41): derive the labeled classes, form
the pairwise (squared) distance rows, and pick the best class per query.
`euclidean_distances` rejects an empty query list or an empty reference list
with a `ValueError`, modelled by `SimErr.emptyInput`. -/
def get_classes (embs : List Emb) (labeled_paths : List LabeledPath)
    (labeled_embs : List Emb) (thr2 : ℚ) : Except SimErr (List (Option String)) :=
  if embs.isEmpty || labeled_embs.isEmpty then
    Except.error SimErr.emptyInput
  else
    Except.ok (embs.map (fun q =>
      best_class (labeled_paths.map get_class) (labeled_embs.map (sqDist q)) thr2))

/-- Maximum of a list of modification timestamps (`max(...)` over the labeled
files' mtimes in `main.py` line 46); `none` when the folder has no regular
file. -/
def maxQ : List ℚ → Option ℚ
  | [] => none
  | x :: xs =>
    some (match maxQ xs with
      | none => x
      | some m => max x m)

/-- The cache freshness check of `_load_or_create_embeddings` (`main.py`
lines 41-47): the cache is valid when the cache file exists, the labeled
folder holds at least one regular file, and the cache's mtime is strictly
greater than the newest labeled file's mtime. -/
def cache_valid (cache_exists : Bool) (cache_mtime : ℚ) (labeled_mtimes : List ℚ) :
    Bool :=
  if cache_exists then
    match maxQ labeled_mtimes with
    | none => false
    | some newest => decide (newest < cache_mtime)
  else false

/-- The record pickled into the cache file: relative paths plus embeddings
(`main.py` line 66). -/
structure CacheData where
  rel_paths : List LabeledPath
  embeddings : List Emb

/-- The environment `_load_or_create_embeddings` runs in: its arguments, the
state of the filesystem it probes, and the outcomes of the external effects
it performs (`pickle.load`, the cache write, `embed_folder`). -/
structure CacheEnv where
  use_cache : Bool
  cache_file_provided : Bool
  cache_exists : Bool
  cache_mtime : ℚ
  labeled_mtimes : List ℚ
  load_result : Except Unit CacheData
  persist_ok : Bool
  fresh : List LabeledPath × List Emb

/-- `_load_or_create_embeddings` (`main.py` lines 19-71).  Caching disabled or
no cache file: recompute with no persistence.  Otherwise run the freshness
check; on a valid cache try to deserialize, treating a load failure as a cache
miss; on a miss recompute via `embed_folder` and attempt to persist, where a
write failure is caught and swallowed.  Path re-anchoring to the current
labeled folder is the identity here since paths carry no folder component. -/
def load_or_create_embeddings (env : CacheEnv) :
    Except Unit (List LabeledPath × List Emb) :=
  if !env.use_cache || !env.cache_file_provided then
    Except.ok env.fresh
  else
    let valid := cache_valid env.cache_exists env.cache_mtime env.labeled_mtimes
    let fromCache : Option (List LabeledPath × List Emb) :=
      if valid then
        match env.load_result with
        | Except.ok d => some (d.rel_paths, d.embeddings)
        | Except.error _ => none
      else none
    match fromCache with
    | some r => Except.ok r
    | none =>
      match (if env.persist_ok then Except.ok () else Except.error ()) with
      | Except.ok _ => Except.ok env.fresh
      | Except.error _ => Except.ok env.fresh

/-- Modelled from the spec: the conflict policy enumeration `utils.Conflict`
(not under src/; its three members are used in `main.py`). -/
inductive Conflict where
  | warn
  | remove
  | crash
deriving DecidableEq

/-- Modelled from the spec: the outcome of the per-file single-face check
performed by `validate_labels` (`data.load_single` and `embed.validate_face`
are not under src/).  A failing file raises a validation error that carries
the offending path, except for loader errors raised without a path
(`exceptions.InvalidImageException` allows `path=None`). -/
inductive FaceStatus where
  | valid
  | invalid (carriesPath : Bool)
deriving DecidableEq

/-- A file of the labeled folder as seen by validation: its name and the
outcome of the single-face check on it. -/
structure LabelFile where
  name : String
  status : FaceStatus
deriving DecidableEq

/-- `validate_labels` under the Crash policy (`main.py` lines 99-125):
iterate the labeled files in order and raise on the first invalid one, the
error carrying the offending path when available.  The error payload is the
`getattr(exc, "path", None)` read by the caller. -/
def validate_labels : List LabelFile → Except (Option String) Unit
  | [] => Except.ok ()
  | f :: rest =>
    match f.status with
    | FaceStatus.valid => validate_labels rest
    | FaceStatus.invalid true => Except.error (some f.name)
    | FaceStatus.invalid false => Except.error none

/-- The state the crash-policy driver loop of `detect_and_export` acts on:
the labeled folder, the names already present in the `error_data` quarantine
folder, and the stream of random suffixes drawn by `getrandbits(16)`. -/
structure DriverState where
  labeled : List LabelFile
  error_dir : List String
  rand : Nat → String
  rand_pos : Nat

/-- The collision loop on the quarantine destination (`main.py` lines
165-167): start from the file's own name and, while the candidate already
exists in the quarantine folder, append `_<random suffix>`.  The search is
bounded by fuel; each reroll strictly lengthens the candidate, so distinct
candidates are tried and enough fuel always finds a free name. -/
def reroll_dest (error_dir : List String) (rand : Nat → String) :
    Nat → Nat → String → Option String
  | 0, _, dest => if dest ∈ error_dir then none else some dest
  | fuel + 1, pos, dest =>
    if dest ∈ error_dir then
      reroll_dest error_dir rand fuel (pos + 1) (dest ++ "_" ++ rand pos)
    else some dest

/-- One quarantine action of the crash-policy loop (`main.py` lines 164-170):
pick a collision-free destination name and move the offending file from the
labeled folder into the quarantine folder.  The fuel `error_dir.length + 1`
always finds a free name because every reroll strictly lengthens the
candidate (`reroll_dest_quarantine`); the `getD` fallback is unreachable. -/
def quarantine (st : DriverState) (p : String) : DriverState :=
  { st with
    labeled := st.labeled.filter (fun f => f.name ≠ p)
    error_dir :=
      ((reroll_dest st.error_dir st.rand (st.error_dir.length + 1) st.rand_pos p).getD p)
        :: st.error_dir
    rand_pos := st.rand_pos + st.error_dir.length + 1 }

/-- The crash-policy retry loop of `detect_and_export` (`main.py` lines
155-170): run validation; on success leave the loop; on a failure whose error
carries the offending path, quarantine that file and re-run validation from
scratch; on a failure carrying no path, re-raise.  Terminates because each
quarantine removes a file from the labeled folder. -/
def crash_retry_loop (st : DriverState) : Except (Option String) DriverState :=
  match h : validate_labels st.labeled with
  | Except.ok _ => Except.ok st
  | Except.error none => Except.error none
  | Except.error (some p) => crash_retry_loop (quarantine st p)
termination_by st.labeled.length
decreasing_by
  have hmem : ∃ f ∈ st.labeled, f.name = p := by
    generalize st.labeled = l at h
    induction l with
    | nil => simp [validate_labels] at h
    | cons f rest ih =>
      rcases hs : f.status with _ | b
      · simp [validate_labels, hs] at h
        rcases ih h with ⟨g, hg, hgp⟩
        exact ⟨g, by simp [hg], hgp⟩
      · cases b with
        | true =>
          simp [validate_labels, hs] at h
          exact ⟨f, by simp, h⟩
        | false => simp [validate_labels, hs] at h
  rcases hmem with ⟨f, hf, hfp⟩
  simp only [quarantine]
  apply List.length_filter_lt_length_iff_exists.mpr
  exact ⟨f, hf, by simp [hfp]⟩

/-- A raw input image path: the leading directories and the basename
(`Path.name`). -/
structure RawPath where
  dirs : List String
  base : String
deriving DecidableEq

/-- The output location chosen by `similarity.export` (lines 85-86):
`write_f / cls / <basename>`; only the class and the file's basename enter. -/
def dest_of (write_f cls : String) (p : RawPath) : String :=
  write_f ++ "/" ++ cls ++ "/" ++ p.base

/-- The writes performed by the assignment loop of `similarity.export`
(lines 79-127), in order: images with no recognised class are skipped, every
other image is written (as a plain or annotated copy of the source image) to
its class destination. -/
def export_writes (write_f : String) (classes : List (Option String))
    (paths : List RawPath) : List (String × RawPath) :=
  (classes.zip paths).filterMap (fun cp =>
    match cp.1 with
    | none => none
    | some cls => some (dest_of write_f cls cp.2, cp.2))

/-- `similarity.export` (lines 44-127; `export` is reserved in Lean):
classify the embeddings, then write each recognised image into its class
subfolder.  The classification error on empty inputs propagates. -/
def export_images (embs : List Emb) (labeled_paths : List LabeledPath)
    (labeled_embs : List Emb) (paths : List RawPath) (write_f : String)
    (thr2 : ℚ) : Except SimErr (List (String × RawPath)) :=
  match get_classes embs labeled_paths labeled_embs thr2 with
  | Except.error e => Except.error e
  | Except.ok classes => Except.ok (export_writes write_f classes paths)

/-- Replay a sequence of file writes on top of a filesystem state: a later
write to a destination replaces an earlier one (`shutil.copy` and
`Image.save` overwrite an existing destination file). -/
def apply_writes (fs : String → Option RawPath) :
    List (String × RawPath) → (String → Option RawPath)
  | [] => fs
  | (d, s) :: rest =>
    apply_writes (fun d' => if d' = d then some s else fs d') rest

/-- The chunking loop of `detect_and_export` (lines 186-195): consecutive
slices of `batch_size` paths.  A zero batch size never reaches this point
(`range` with step 0 raises first, see `detect_and_export`). -/
def chunk_list (batch : Nat) (paths : List RawPath) : List (List RawPath) :=
  if h : batch = 0 ∨ paths = [] then []
  else paths.take batch :: chunk_list batch (paths.drop batch)
termination_by paths.length
decreasing_by
  push_neg at h
  rcases h with ⟨hb, hp⟩
  have h1 : 0 < batch := Nat.pos_of_ne_zero hb
  have h2 : 0 < paths.length := List.length_pos.mpr hp
  simp [List.length_drop]
  omega

/-- Errors of the Python runtime observable at the `detect_and_export`
level. -/
inductive PyError where
  | invalidImage (path : Option String)
  | nameError
  | valueError
deriving DecidableEq

/-- `multiprocessing.Pool(processes)`: raises `ValueError` unless at least
one worker process is requested. -/
def pool_create (n : Int) : Except PyError Nat :=
  if n < 1 then Except.error PyError.valueError else Except.ok n.toNat

/-- The environment a `detect_and_export` run acts on. -/
structure RunEnv where
  driver : DriverState
  cache : CacheEnv
  raw_paths : List RawPath
  batch_size : Nat
  cpu_count : Nat

/-- `detect_and_export` (`main.py` lines 128-199), up to the dispatch of the
chunks: step 1 validates the labels, under Crash inside the quarantine retry
loop.  In the source the embedding step (lines 174-180) is indented inside
the `else` branch, so `labeled_paths`/`labeled_embs` are bound only on the
Warn/Remove path; the Crash path reaches the chunk-building loop with them
unbound, which raises a `NameError` as soon as the first chunk tuple is
built, i.e. whenever the raw folder is non-empty.  `range` with step 0
raises `ValueError` before any chunk is built.  On success the value is the
chunk partition of the raw paths together with the worker-pool size
`cpu_count() - 2` (no floor is applied; `Pool` rejects sizes below 1). -/
def detect_and_export (conflict : Conflict) (env : RunEnv) :
    Except PyError (List (List RawPath) × Nat) :=
  let step1 : Except PyError (Option (List LabeledPath × List Emb)) :=
    match conflict with
    | Conflict.crash =>
      match crash_retry_loop env.driver with
      | Except.ok _ => Except.ok none
      | Except.error p => Except.error (PyError.invalidImage p)
    | _ =>
      Except.ok (some ((load_or_create_embeddings env.cache).toOption.getD
        env.cache.fresh))
  match step1 with
  | Except.error e => Except.error e
  | Except.ok labeledData =>
    if env.batch_size = 0 then Except.error PyError.valueError
    else
      match labeledData, env.raw_paths with
      | none, _ :: _ => Except.error PyError.nameError
      | _, _ =>
        match pool_create ((env.cpu_count : Int) - 2) with
        | Except.error e => Except.error e
        | Except.ok n => Except.ok (chunk_list env.batch_size env.raw_paths, n)

/-! ## Helper lemmas -/

/-- A non-empty list has an argmin. -/
theorem argminF_isSome (l : List ℚ) (h : l ≠ []) : ∃ j m, argminF l = some (j, m) := by
  cases l with
  | nil => simp at h
  | cons x xs =>
    cases hxs : argminF xs with
    | none => exact ⟨0, x, by simp [argminF, hxs]⟩
    | some jm =>
      rcases jm with ⟨j, m⟩
      by_cases hx : x ≤ m
      · exact ⟨0, x, by simp [argminF, hxs, hx]⟩
      · exact ⟨j + 1, m, by simp [argminF, hxs, hx]⟩

/-- The value returned by `argminF` is a lower bound of the list. -/
theorem argminF_min (l : List ℚ) (j : Nat) (m : ℚ) (h : argminF l = some (j, m)) :
    ∀ x ∈ l, m ≤ x := by
  induction l generalizing j m with
  | nil => simp [argminF] at h
  | cons x xs ih =>
    intro y hy
    cases hxs : argminF xs with
    | none =>
      have hxsnil : xs = [] := by
        cases xs with
        | nil => rfl
        | cons a as =>
          rcases argminF_isSome (a :: as) (by simp) with ⟨j', m', h'⟩
          rw [h'] at hxs
          cases hxs
      subst hxsnil
      simp [argminF] at h
      simp at hy
      simp [hy, h.2]
    | some jm =>
      rcases jm with ⟨j', m'⟩
      rw [argminF, hxs] at h
      by_cases hx : x ≤ m'
      · simp [hx] at h
        rcases List.mem_cons.mp hy with rfl | hmem
        · simp [h.2]
        · exact h.2 ▸ le_trans hx (ih j' m' hxs _ hmem)
      · simp [hx] at h
        rcases List.mem_cons.mp hy with rfl | hmem
        · exact h.2 ▸ le_of_lt (lt_of_not_le hx)
        · exact h.2 ▸ ih j' m' hxs _ hmem

/-- The argmin index is in range and attains the returned minimum. -/
theorem argminF_get (l : List ℚ) (j : Nat) (m : ℚ) (h : argminF l = some (j, m)) :
    j < l.length ∧ l.getD j 0 = m := by
  induction l generalizing j m with
  | nil => simp [argminF] at h
  | cons x xs ih =>
    cases hxs : argminF xs with
    | none =>
      simp [argminF, hxs] at h
      simp [← h.1, h.2]
    | some jm =>
      rcases jm with ⟨j', m'⟩
      rw [argminF, hxs] at h
      by_cases hx : x ≤ m'
      · simp [hx] at h
        simp [← h.1, h.2]
      · simp [hx] at h
        rcases ih j' m' hxs with ⟨hlt, hget⟩
        constructor
        · simp
          omega
        · rw [← h.1, List.getD_cons_succ, hget]
          exact h.2

/-- `argminF` returns the first index attaining the minimum: every earlier
entry is strictly larger. -/
theorem argminF_first (l : List ℚ) (j : Nat) (m : ℚ) (h : argminF l = some (j, m)) :
    ∀ i, i < j → m < l.getD i 0 := by
  induction l generalizing j m with
  | nil => simp [argminF] at h
  | cons x xs ih =>
    intro i hi
    cases hxs : argminF xs with
    | none =>
      simp [argminF, hxs] at h
      omega
    | some jm =>
      rcases jm with ⟨j', m'⟩
      rw [argminF, hxs] at h
      by_cases hx : x ≤ m'
      · simp [hx] at h
        omega
      · simp [hx] at h
        cases i with
        | zero => simpa [← h.2] using lt_of_not_le hx
        | succ i' =>
          have := ih j' m' hxs i' (by omega)
          simpa [← h.2] using this

/-- An indexed read with a default is an element of the list or the
default. -/
theorem getD_mem_or {α : Type} (l : List α) (j : Nat) (d : α) :
    l.getD j d ∈ l ∨ l.getD j d = d := by
  induction l generalizing j with
  | nil => right; cases j <;> rfl
  | cons x xs ih =>
    cases j with
    | zero => left; simp
    | succ n =>
      rcases ih n with h | h
      · left
        simp only [List.getD_cons_succ]
        exact List.mem_cons_of_mem _ h
      · right
        simp only [List.getD_cons_succ]
        exact h

/-- `get_class` never produces the reserved negative label as an identity. -/
theorem get_class_ne_reserved (p : LabeledPath) : get_class p ≠ some "none" := by
  unfold get_class
  by_cases h : p.name = "none" <;> simp [h]

/-- Reading a mapped list with the mapped default commutes with the map. -/
theorem getD_map {α β : Type} (f : α → β) (l : List α) (d : α) :
    ∀ j, (l.map f).getD j (f d) = f (l.getD j d) := by
  induction l with
  | nil => intro j; cases j <;> rfl
  | cons x xs ih =>
    intro j
    cases j with
    | zero => rfl
    | succ n => simpa using ih n

/-- The squared distance to the empty vector is zero. -/
theorem sqDist_nil_right (q : Emb) : sqDist q [] = 0 := by
  simp [sqDist]

/-- Reading the distance row equals the distance to the corresponding
reference. -/
theorem map_sqDist_getD (q : Emb) (refs : List Emb) (n : Nat) :
    (refs.map (sqDist q)).getD n 0 = sqDist q (refs.getD n []) := by
  have h0 : (0 : ℚ) = sqDist q [] := (sqDist_nil_right q).symm
  rw [h0, getD_map]

/-- On non-empty inputs `get_classes` returns one best class per query. -/
theorem get_classes_eq_ok (embs : List Emb) (paths : List LabeledPath)
    (refs : List Emb) (thr2 : ℚ) (he : embs ≠ []) (hr : refs ≠ []) :
    get_classes embs paths refs thr2 =
      Except.ok (embs.map fun q =>
        best_class (paths.map get_class) (refs.map (sqDist q)) thr2) := by
  simp [get_classes, he, hr]

/-! ## Claims -/

/-- C2, counterexample: classifying one query embedding against an empty
reference set (no labeled paths, no labeled embeddings) does not return
"no match": it raises the empty-input error of the pairwise distance
computation, contradicting the claim at this concrete input. -/
theorem c2_counterexample :
    get_classes [[0]] [] [] 1 = Except.error SimErr.emptyInput := rfl

/-- C2 (amended): for every list of query embeddings and every threshold,
classification against an empty reference set raises the empty-input error
of the pairwise distance computation (`euclidean_distances` rejects an empty
array) instead of returning "no match" per query. -/
theorem c2_empty_reference_raises (embs : List Emb) (thr2 : ℚ) :
    get_classes embs [] [] thr2 = Except.error SimErr.emptyInput := by
  simp [get_classes]

/-- C3: classification output never carries the reserved negative label:
every assigned identity comes from a labeled path whose derived class it is,
and that path's name — hence the identity — is never the reserved `none`. -/
theorem c3_no_reserved_label (embs labeled_embs : List Emb)
    (paths : List LabeledPath) (thr2 : ℚ) (out : List (Option String))
    (hout : get_classes embs paths labeled_embs thr2 = Except.ok out) :
    ∀ o ∈ out, ∀ s, o = some s →
      s ≠ "none" ∧ ∃ p ∈ paths, get_class p = some s ∧ p.name ≠ "none" := by
  have hmap : out = embs.map fun q =>
      best_class (paths.map get_class) (labeled_embs.map (sqDist q)) thr2 := by
    by_cases he : embs = []
    · subst he
      simp [get_classes] at hout
    · by_cases hr : labeled_embs = []
      · subst hr
        simp [get_classes] at hout
      · rw [get_classes_eq_ok embs paths labeled_embs thr2 he hr] at hout
        exact (Except.ok.injEq _ _ ▸ hout).symm
  subst hmap
  intro o ho s hs
  rcases List.mem_map.mp ho with ⟨q, _, hq⟩
  subst hq
  unfold best_class at hs
  rcases hargj : argminF (labeled_embs.map (sqDist q)) with _ | jm
  · rw [hargj] at hs
    cases hs
  · rcases jm with ⟨j, m⟩
    rw [hargj] at hs
    dsimp only at hs
    by_cases hm : m ≤ thr2
    · rw [if_pos hm] at hs
      rcases getD_mem_or (paths.map get_class) j none with hmem | hdef
      · rw [hs] at hmem
        rcases List.mem_map.mp hmem with ⟨p, hp, hpc⟩
        have hname : p.name ≠ "none" := by
          intro hn
          rw [get_class, if_pos hn] at hpc
          cases hpc
        have hsp : s = p.name := by
          rw [get_class, if_neg hname] at hpc
          exact (Option.some.injEq _ _ ▸ hpc).symm
        exact ⟨hsp ▸ hname, p, hp, hpc, hname⟩
      · rw [hs] at hdef
        cases hdef
    · rw [if_neg hm] at hs
      cases hs

/-- C5, counterexample: with the non-empty reference set consisting of the
single negative exemplar `none_1.png` and threshold 0, a query at distance
exactly 0 from that reference (within the threshold) is still answered with
"no match", so "returns an identity if and only if the minimum distance is
within the threshold" fails at this concrete input. -/
theorem c5_counterexample :
    get_classes [[0]] [⟨"none", 1, "png"⟩] [[0]] 0 = Except.ok [none]
      ∧ sqDist [0] [0] ≤ 0 := by
  constructor
  · simp +decide [get_classes, best_class, argminF, sqDist, get_class]
  · norm_num [sqDist]

/-- Reading within bounds lands in the list. -/
theorem getD_mem_of_lt {α : Type} (l : List α) (j : Nat) (d : α)
    (h : j < l.length) : l.getD j d ∈ l := by
  induction l generalizing j with
  | nil => simp at h
  | cons x xs ih =>
    cases j with
    | zero => simp
    | succ n =>
      simp only [List.getD_cons_succ]
      exact List.mem_cons_of_mem _ (ih n (by simpa using h))

/-- The single-query behaviour of `get_classes` on a non-empty reference
set: the answer is determined by the first reference attaining the minimum
(squared) distance, compared against the threshold. -/
theorem best_row_spec (q : Emb) (refs : List Emb) (paths : List LabeledPath)
    (thr2 : ℚ) (hne : refs ≠ []) :
    ∃ j m, argminF (refs.map (sqDist q)) = some (j, m)
      ∧ (∀ x ∈ refs.map (sqDist q), m ≤ x)
      ∧ sqDist q (refs.getD j []) = m
      ∧ j < refs.length
      ∧ get_classes [q] paths refs thr2
          = Except.ok [if m ≤ thr2 then get_class (paths.getD j ⟨"none", 0, ""⟩)
              else none] := by
  have hmne : refs.map (sqDist q) ≠ [] := by
    intro h
    exact hne (List.map_eq_nil_iff.mp h)
  rcases argminF_isSome _ hmne with ⟨j, m, hj⟩
  have hmin := argminF_min _ _ _ hj
  rcases argminF_get _ _ _ hj with ⟨hjlt, hget⟩
  have hgetd : sqDist q (refs.getD j []) = m := by
    rw [← map_sqDist_getD q refs j]
    exact hget
  have hok : get_classes [q] paths refs thr2
      = Except.ok [if m ≤ thr2 then get_class (paths.getD j ⟨"none", 0, ""⟩)
          else none] := by
    rw [get_classes_eq_ok [q] paths refs thr2 (by simp) hne]
    have hbc : best_class (paths.map get_class) (refs.map (sqDist q)) thr2
        = if m ≤ thr2 then get_class (paths.getD j ⟨"none", 0, ""⟩) else none := by
      unfold best_class
      rw [hj]
      dsimp only
      have hdm : (paths.map get_class).getD j none
          = get_class (paths.getD j ⟨"none", 0, ""⟩) := by
        have hd : (none : Option String) = get_class ⟨"none", 0, ""⟩ := by
          simp [get_class]
        rw [hd, getD_map]
      rw [hdm]
    simp [hbc]
  exact ⟨j, m, hj, hmin, hgetd, by simpa using hjlt, hok⟩

/-- C5 (amended): for every aligned non-empty reference set and every query,
the classifier locates the first reference attaining the minimum (squared)
distance `m`; the answer is the class of that reference when `m ≤ thr2` —
hence an identity exactly when the winning reference is not a reserved
`none` exemplar, a query at distance exactly the threshold is accepted, and
a zero-threshold exact duplicate of a non-reserved reference still matches —
and "no match" when `m` exceeds the threshold; in particular an identity is
returned only if the minimum distance is within the threshold. -/
theorem c5_threshold_boundary (q : Emb) (refs : List Emb)
    (paths : List LabeledPath) (thr2 : ℚ) (hne : refs ≠ [])
    (hlen : paths.length = refs.length) :
    ∃ j m, argminF (refs.map (sqDist q)) = some (j, m)
      ∧ (∀ x ∈ refs.map (sqDist q), m ≤ x)
      ∧ sqDist q (refs.getD j []) = m
      ∧ j < refs.length
      ∧ get_classes [q] paths refs thr2
          = Except.ok [if m ≤ thr2 then get_class (paths.getD j ⟨"none", 0, ""⟩)
              else none]
      ∧ (∀ s, get_classes [q] paths refs thr2 = Except.ok [some s] → m ≤ thr2) := by
  rcases best_row_spec q refs paths thr2 hne with ⟨j, m, hj, hmin, hgetd, hjlt, hok⟩
  refine ⟨j, m, hj, hmin, hgetd, hjlt, hok, ?_⟩
  intro s hs
  rw [hok] at hs
  by_cases hm : m ≤ thr2
  · exact hm
  · rw [if_neg hm] at hs
    simp at hs

/-- C9: when two reference items (positions `i < k`) both attain the minimal
distance to the query and that minimum is within the threshold, the emitted
class is that of the first reference attaining the minimum — an index
`j ≤ i` below which every reference is strictly farther. -/
theorem c9_tie_first_occurrence (q : Emb) (refs : List Emb)
    (paths : List LabeledPath) (thr2 : ℚ) (i k : Nat) (hik : i < k)
    (hk : k < refs.length) (hlen : paths.length = refs.length)
    (hmin : ∀ x ∈ refs.map (sqDist q), sqDist q (refs.getD i []) ≤ x)
    (htie : sqDist q (refs.getD i []) = sqDist q (refs.getD k []))
    (hthr : sqDist q (refs.getD i []) ≤ thr2) :
    ∃ j, j ≤ i
      ∧ sqDist q (refs.getD j []) = sqDist q (refs.getD i [])
      ∧ (∀ n, n < j → sqDist q (refs.getD i []) < sqDist q (refs.getD n []))
      ∧ get_classes [q] paths refs thr2
          = Except.ok [get_class (paths.getD j ⟨"none", 0, ""⟩)] := by
  have hne : refs ≠ [] := by
    intro h
    rw [h] at hk
    simp at hk
  have hi : i < refs.length := lt_trans hik hk
  rcases best_row_spec q refs paths thr2 hne with ⟨j, m, hj, hminj, hgetj, hjlt, hok⟩
  have hmemi : sqDist q (refs.getD i []) ∈ refs.map (sqDist q) := by
    rw [← map_sqDist_getD q refs i]
    exact getD_mem_of_lt _ i 0 (by simpa using hi)
  have hmemj : sqDist q (refs.getD j []) ∈ refs.map (sqDist q) := by
    rw [← map_sqDist_getD q refs j]
    exact getD_mem_of_lt _ j 0 (by simpa using hjlt)
  have hmi : m ≤ sqDist q (refs.getD i []) := hminj _ hmemi
  have him : sqDist q (refs.getD i []) ≤ m := hgetj ▸ hmin _ hmemj
  have hem : m = sqDist q (refs.getD i []) := le_antisymm hmi him
  have hji : j ≤ i := by
    by_contra hcon
    have hij : i < j := lt_of_not_le hcon
    have := argminF_first _ _ _ hj i hij
    rw [map_sqDist_getD q refs i, ← hem] at this
    exact lt_irrefl m this
  refine ⟨j, hji, hgetj.trans hem, ?_, ?_⟩
  · intro n hn
    have := argminF_first _ _ _ hj n hn
    rw [map_sqDist_getD q refs n, hem] at this
    exact this
  · rw [hok, if_pos (hem ▸ hthr)]

/-- C2 witness: a concrete two-query instantiation of the amended claim. -/
theorem c2_witness :
    get_classes [[(0 : ℚ)], [1]] [] [] 5 = Except.error SimErr.emptyInput :=
  c2_empty_reference_raises [[0], [1]] 5

/-- C3 witness: at a concrete run assigning `alice`, the assigned identity
is not the reserved label and stems from a non-reserved labeled path. -/
theorem c3_witness :
    ("alice" : String) ≠ "none"
      ∧ ∃ p ∈ [(⟨"alice", 1, "png"⟩ : LabeledPath)],
          get_class p = some "alice" ∧ p.name ≠ "none" :=
  c3_no_reserved_label [[0]] [[0]] [⟨"alice", 1, "png"⟩] 1 [some "alice"]
    (by simp +decide [get_classes, best_class, argminF, sqDist, get_class])
    (some "alice") (by simp) "alice" rfl

/-- C5 witness: the amended claim at a concrete one-reference set. -/
theorem c5_witness :
    ∃ j m, argminF ([[(0 : ℚ)]].map (sqDist [0])) = some (j, m)
      ∧ (∀ x ∈ [[(0 : ℚ)]].map (sqDist [0]), m ≤ x)
      ∧ sqDist [0] ([[(0 : ℚ)]].getD j []) = m
      ∧ j < [[(0 : ℚ)]].length
      ∧ get_classes [[0]] [⟨"alice", 1, "png"⟩] [[0]] 1
          = Except.ok [if m ≤ 1 then
              get_class ([(⟨"alice", 1, "png"⟩ : LabeledPath)].getD j ⟨"none", 0, ""⟩)
              else none]
      ∧ (∀ s, get_classes [[0]] [⟨"alice", 1, "png"⟩] [[0]] 1
          = Except.ok [some s] → m ≤ 1) :=
  c5_threshold_boundary [0] [[0]] [⟨"alice", 1, "png"⟩] 1 (by simp) rfl

/-- C9 witness: the tie-break claim at a concrete two-reference tie. -/
theorem c9_witness :
    ∃ j, j ≤ 0
      ∧ sqDist [0] ([[(0 : ℚ)], [0]].getD j []) = sqDist [0] ([[(0 : ℚ)], [0]].getD 0 [])
      ∧ (∀ n, n < j →
          sqDist [0] ([[(0 : ℚ)], [0]].getD 0 []) < sqDist [0] ([[(0 : ℚ)], [0]].getD n []))
      ∧ get_classes [[0]] [⟨"alice", 1, "png"⟩, ⟨"bob", 1, "png"⟩] [[0], [0]] 1
          = Except.ok [get_class
              ([(⟨"alice", 1, "png"⟩ : LabeledPath), ⟨"bob", 1, "png"⟩].getD j
                ⟨"none", 0, ""⟩)] :=
  c9_tie_first_occurrence [0] [[0], [0]] [⟨"alice", 1, "png"⟩, ⟨"bob", 1, "png"⟩] 1
    0 1 (by omega) (by simp) rfl
    (by
      intro x hx
      norm_num [sqDist] at hx ⊢
      simp [hx])
    rfl
    (by norm_num [sqDist])

/-- A non-empty mtime list has a maximum. -/
theorem maxQ_some (ms : List ℚ) (h : ms ≠ []) : ∃ M, maxQ ms = some M := by
  cases ms with
  | nil => simp at h
  | cons x xs => exact ⟨_, rfl⟩

/-- `maxQ` returns a maximum: it is below a bound iff every element is. -/
theorem maxQ_lt_iff (ms : List ℚ) (M t : ℚ) (h : maxQ ms = some M) :
    M < t ↔ ∀ m ∈ ms, m < t := by
  induction ms generalizing M with
  | nil => simp [maxQ] at h
  | cons x xs ih =>
    simp only [maxQ] at h
    cases hxs : maxQ xs with
    | none =>
      have hnil : xs = [] := by
        cases xs with
        | nil => rfl
        | cons a as => simp [maxQ] at hxs
      subst hnil
      rw [hxs] at h
      dsimp only at h
      rcases Option.some.injEq _ _ ▸ h with rfl
      simp
    | some b =>
      rw [hxs] at h
      dsimp only at h
      rcases Option.some.injEq _ _ ▸ h with rfl
      rw [max_lt_iff, ih b hxs]
      simp

/-- `maxQ` finds a maximum only in a non-empty list. -/
theorem maxQ_some_ne_nil (ms : List ℚ) (M : ℚ) (h : maxQ ms = some M) : ms ≠ [] := by
  intro hnil
  subst hnil
  simp [maxQ] at h

/-- C6: with caching enabled, the cache counts as valid exactly when the
cache artifact exists, the labeled folder holds at least one regular file,
and the cache's modification timestamp is strictly greater than every (hence
the maximum) labeled file's timestamp; with no regular files the cache is
never valid, and `load_or_create_embeddings` then always returns the freshly
recomputed embeddings. -/
theorem c6_cache_validity (e : Bool) (t : ℚ) (ms : List ℚ) (env : CacheEnv) :
    (cache_valid e t ms = true ↔ (e = true ∧ ms ≠ [] ∧ ∀ m ∈ ms, m < t))
      ∧ (ms = [] → cache_valid e t ms = false)
      ∧ (env.use_cache = true → env.cache_file_provided = true →
          env.labeled_mtimes = [] →
          load_or_create_embeddings env = Except.ok env.fresh) := by
  refine ⟨?_, ?_, ?_⟩
  · cases e with
    | false => simp [cache_valid]
    | true =>
      simp only [cache_valid, if_true]
      cases hm : maxQ ms with
      | none =>
        have hnil : ms = [] := by
          cases ms with
          | nil => rfl
          | cons a as => simp [maxQ] at hm
        subst hnil
        simp
      | some M =>
        have hne := maxQ_some_ne_nil ms M hm
        simp [maxQ_lt_iff ms M t hm, hne]
  · intro hnil
    subst hnil
    cases e <;> simp [cache_valid, maxQ]
  · intro hu hp hml
    have hvalid : cache_valid env.cache_exists env.cache_mtime env.labeled_mtimes
        = false := by
      rw [hml]
      cases env.cache_exists <;> simp [cache_valid, maxQ]
    unfold load_or_create_embeddings
    rw [hu, hp]
    simp only [Bool.not_true, Bool.or_self, Bool.false_eq_true, if_false, hvalid]
    cases hpk : env.persist_ok <;> simp

/-- C6 witness: a concrete instantiation — an existing cache artifact newer
than both labeled files is valid, and with an empty labeled folder the fresh
embeddings are returned. -/
theorem c6_witness :
    cache_valid true 5 [1, 2] = true
      ∧ load_or_create_embeddings
          ⟨true, true, true, 5, [], Except.error (), true, ([], [])⟩
          = Except.ok ([], []) := by
  constructor
  · exact (c6_cache_validity true 5 [1, 2]
      ⟨true, true, true, 5, [], Except.error (), true, ([], [])⟩).1.mpr
      ⟨rfl, by simp, by intro m hm; simp at hm; rcases hm with rfl | rfl <;> norm_num⟩
  · exact (c6_cache_validity true 5 [1, 2]
      ⟨true, true, true, 5, [], Except.error (), true, ([], [])⟩).2.2 rfl rfl rfl

/-- C8: `load_or_create_embeddings` never propagates a cache error: it always
returns a reference set; when deserializing the cache fails the freshly
recomputed embeddings are returned; and a cache-write failure does not change
the returned value. -/
theorem c8_cache_errors_absorbed (env : CacheEnv) :
    (∃ r, load_or_create_embeddings env = Except.ok r)
      ∧ (env.load_result = Except.error () →
          load_or_create_embeddings env = Except.ok env.fresh)
      ∧ (load_or_create_embeddings { env with persist_ok := false }
          = load_or_create_embeddings { env with persist_ok := true }) := by
  unfold load_or_create_embeddings
  by_cases hpath : (!env.use_cache || !env.cache_file_provided) = true
  · simp [hpath]
  · by_cases hv : cache_valid env.cache_exists env.cache_mtime env.labeled_mtimes
        = true
    · rcases hl : env.load_result with u | d
      · cases hpk : env.persist_ok <;> simp [hpath, hv, hl, hpk]
      · cases hpk : env.persist_ok <;> simp [hpath, hv, hl, hpk]
    · cases hpk : env.persist_ok <;> simp [hpath, hv, hpk]

/-- Filtering with a stronger predicate keeps at most as many elements. -/
theorem length_filter_le_of_imp {α : Type} {p q : α → Bool} (l : List α)
    (himp : ∀ y, q y = true → p y = true) :
    (l.filter q).length ≤ (l.filter p).length := by
  induction l with
  | nil => simp
  | cons a as ih =>
    by_cases hq : q a = true
    · simp [List.filter_cons, hq, himp a hq]
      omega
    · rcases hp : p a with _ | _
      · simp [List.filter_cons, hq, hp] at *
        exact ih
      · simp [List.filter_cons, hq, hp] at *
        omega

/-- Filtering with a strictly stronger predicate, witnessed by an element the
weak predicate keeps and the strong one drops, keeps strictly fewer
elements. -/
theorem length_filter_lt_of_mem {α : Type} {p q : α → Bool} (l : List α) (x : α)
    (hx : x ∈ l) (hpx : p x = true) (hqx : q x = false)
    (himp : ∀ y, q y = true → p y = true) :
    (l.filter q).length < (l.filter p).length := by
  induction l with
  | nil => simp at hx
  | cons a as ih =>
    rcases List.mem_cons.mp hx with rfl | hmem
    · have hle := length_filter_le_of_imp (p := p) (q := q) as himp
      simp [List.filter_cons, hpx, hqx]
      omega
    · by_cases hq : q a = true
      · simp [List.filter_cons, hq, himp a hq]
        exact ih hmem
      · rcases hp : p a with _ | _
        · simp [List.filter_cons, hq, hp]
          exact ih hmem
        · simp [List.filter_cons, hq, hp]
          have := ih hmem
          omega

/-- Each reroll strictly lengthens the candidate name, so the candidates are
pairwise distinct and fuel exceeding the number of at-least-as-long names in
the quarantine folder always finds a collision-free destination. -/
theorem reroll_dest_total (dir : List String) (rand : Nat → String) :
    ∀ (fuel pos : Nat) (dest : String),
      (dir.filter (fun n => dest.length ≤ n.length)).length < fuel →
      ∃ d, reroll_dest dir rand fuel pos dest = some d ∧ d ∉ dir := by
  intro fuel
  induction fuel with
  | zero => exact fun pos dest h => absurd h (Nat.not_lt_zero _)
  | succ k ih =>
    intro pos dest h
    by_cases hd : dest ∈ dir
    · have hone : "_".length = 1 := rfl
      have hstrict :
          (dir.filter (fun n => (dest ++ "_" ++ rand pos).length ≤ n.length)).length <
            (dir.filter (fun n => dest.length ≤ n.length)).length := by
        apply length_filter_lt_of_mem dir dest hd
        · simp
        · simp [String.length_append, hone]
          omega
        · intro y hy
          simp [String.length_append, hone] at hy ⊢
          omega
      have hrec := ih (pos + 1) (dest ++ "_" ++ rand pos) (by omega)
      rcases hrec with ⟨d, hdd, hnd⟩
      exact ⟨d, by simp [reroll_dest, hd, hdd], hnd⟩
    · exact ⟨dest, by simp [reroll_dest, hd], hd⟩

/-- The fuel used by `quarantine` always suffices to find a fresh name. -/
theorem reroll_dest_quarantine (st : DriverState) (p : String) :
    ∃ d, reroll_dest st.error_dir st.rand (st.error_dir.length + 1) st.rand_pos p
        = some d ∧ d ∉ st.error_dir := by
  apply reroll_dest_total
  have := List.length_filter_le (fun n => decide (p.length ≤ n.length)) st.error_dir
  omega

/-- When validation fails carrying a path, that path names a file of the
folder. -/
theorem validate_labels_error_mem (files : List LabelFile) (p : String)
    (h : validate_labels files = Except.error (some p)) :
    ∃ f, f ∈ files ∧ f.name = p ∧ f.status = FaceStatus.invalid true := by
  induction files with
  | nil => simp [validate_labels] at h
  | cons f rest ih =>
    rcases hs : f.status with _ | b
    · simp [validate_labels, hs] at h
      rcases ih h with ⟨g, hg, hgp, hgs⟩
      exact ⟨g, List.mem_cons_of_mem _ hg, hgp, hgs⟩
    · cases b with
      | true =>
        simp [validate_labels, hs] at h
        exact ⟨f, List.mem_cons_self _ _, h, hs⟩
      | false => simp [validate_labels, hs] at h

/-- Quarantining the offending file strictly shrinks the labeled folder. -/
theorem quarantine_shrinks (st : DriverState) (p : String)
    (h : validate_labels st.labeled = Except.error (some p)) :
    (quarantine st p).labeled.length < st.labeled.length := by
  rcases validate_labels_error_mem st.labeled p h with ⟨f, hf, hfp, _⟩
  simp only [quarantine]
  apply List.length_filter_lt_length_iff_exists.mpr
  exact ⟨f, hf, by simp [hfp]⟩

/-- The retry loop stops as soon as validation succeeds. -/
theorem crash_retry_loop_eq_ok (st : DriverState)
    (h : validate_labels st.labeled = Except.ok ()) :
    crash_retry_loop st = Except.ok st := by
  rw [crash_retry_loop]
  split <;> simp_all

/-- One failing iteration of the retry loop quarantines the offender and
re-runs validation from scratch. -/
theorem crash_retry_loop_eq_step (st : DriverState) (p : String)
    (h : validate_labels st.labeled = Except.error (some p)) :
    crash_retry_loop st = crash_retry_loop (quarantine st p) := by
  conv_lhs => rw [crash_retry_loop]
  split <;> simp_all

/-- A validation error carrying no path leaves the loop at once. -/
theorem crash_retry_loop_eq_raise (st : DriverState)
    (h : validate_labels st.labeled = Except.error none) :
    crash_retry_loop st = Except.error none := by
  rw [crash_retry_loop]
  split <;> simp_all

/-- A state returned by the retry loop validates cleanly. -/
theorem crash_retry_loop_validated :
    ∀ (n : Nat) (st st' : DriverState), st.labeled.length ≤ n →
      crash_retry_loop st = Except.ok st' →
      validate_labels st'.labeled = Except.ok () := by
  intro n
  induction n with
  | zero =>
    intro st st' hlen h
    rcases hval : validate_labels st.labeled with op | u
    · rcases op with _ | p
      · rw [crash_retry_loop_eq_raise st hval] at h
        cases h
      · have hsh := quarantine_shrinks st p hval
        exact absurd (lt_of_lt_of_le hsh hlen) (Nat.not_lt_zero _)
    · rw [crash_retry_loop_eq_ok st hval] at h
      cases h
      exact hval
  | succ k ih =>
    intro st st' hlen h
    rcases hval : validate_labels st.labeled with op | u
    · rcases op with _ | p
      · rw [crash_retry_loop_eq_raise st hval] at h
        cases h
      · rw [crash_retry_loop_eq_step st p hval] at h
        have hsh := quarantine_shrinks st p hval
        exact ih (quarantine st p) st' (by omega) h
    · rw [crash_retry_loop_eq_ok st hval] at h
      cases h
      exact hval

/-- C7: the crash-policy driver loop: validation success ends the loop with
the current folder state; a validation failure carrying the offending path
moves that file to a collision-free name inside the quarantine folder and
re-runs validation from scratch; a validation failure carrying no path
propagates immediately; and any state the loop returns validates cleanly, so
the loop ends exactly when validation succeeds. -/
theorem c7_quarantine_retry (st : DriverState) :
    (validate_labels st.labeled = Except.ok () → crash_retry_loop st = Except.ok st)
      ∧ (∀ p, validate_labels st.labeled = Except.error (some p) →
          crash_retry_loop st = crash_retry_loop (quarantine st p)
            ∧ ∃ d, reroll_dest st.error_dir st.rand (st.error_dir.length + 1)
                  st.rand_pos p = some d
              ∧ d ∉ st.error_dir
              ∧ (quarantine st p).error_dir = d :: st.error_dir
              ∧ (quarantine st p).labeled
                  = st.labeled.filter (fun f => f.name ≠ p))
      ∧ (validate_labels st.labeled = Except.error none →
          crash_retry_loop st = Except.error none)
      ∧ (∀ st', crash_retry_loop st = Except.ok st' →
          validate_labels st'.labeled = Except.ok ()) := by
  refine ⟨crash_retry_loop_eq_ok st, ?_, crash_retry_loop_eq_raise st, ?_⟩
  · intro p hp
    refine ⟨crash_retry_loop_eq_step st p hp, ?_⟩
    rcases reroll_dest_quarantine st p with ⟨d, hr, hnd⟩
    exact ⟨d, hr, hnd, by simp [quarantine, hr], by simp [quarantine]⟩
  · intro st' h
    exact crash_retry_loop_validated st.labeled.length st st' (le_refl _) h

/-- C7 witness: a folder whose single file is valid leaves the loop at
once. -/
theorem c7_witness :
    crash_retry_loop ⟨[⟨"a", FaceStatus.valid⟩], [], fun _ => "r", 0⟩
      = Except.ok ⟨[⟨"a", FaceStatus.valid⟩], [], fun _ => "r", 0⟩ :=
  (c7_quarantine_retry ⟨[⟨"a", FaceStatus.valid⟩], [], fun _ => "r", 0⟩).1 rfl

/-- C1: under the Crash policy the source never binds
`labeled_paths`/`labeled_embs` (the embedding step sits inside the `else`
branch), so once validation succeeds and the raw folder is non-empty the
chunk-building loop raises `NameError` instead of classifying against a
well-defined reference set. -/
theorem c1_crash_unbound_reference (env : RunEnv)
    (hval : validate_labels env.driver.labeled = Except.ok ())
    (hraw : env.raw_paths ≠ []) (hbatch : env.batch_size ≠ 0) :
    detect_and_export Conflict.crash env = Except.error PyError.nameError := by
  unfold detect_and_export
  rw [crash_retry_loop_eq_ok env.driver hval]
  dsimp only
  rw [if_neg hbatch]
  rcases hr : env.raw_paths with _ | ⟨a, as⟩
  · exact absurd hr hraw
  · rfl

/-- C1 witness: a crash-policy run over a valid labeled folder and one raw
image fails with the unbound-reference error. -/
theorem c1_witness :
    detect_and_export Conflict.crash
      ⟨⟨[⟨"a", FaceStatus.valid⟩], [], fun _ => "r", 0⟩,
        ⟨true, true, false, 0, [], Except.error (), true, ([], [])⟩,
        [⟨[], "x.png"⟩], 32, 8⟩
      = Except.error PyError.nameError :=
  c1_crash_unbound_reference
    ⟨⟨[⟨"a", FaceStatus.valid⟩], [], fun _ => "r", 0⟩,
      ⟨true, true, false, 0, [], Except.error (), true, ([], [])⟩,
      [⟨[], "x.png"⟩], 32, 8⟩
    rfl (by simp) (by simp)

/-- C4, counterexample: on a machine whose available parallelism is 2 the
pool size expression `cpu_count() - 2` is 0, so `Pool` construction raises
`ValueError` and the run aborts — the claimed floor of 1 does not exist in
the code. -/
theorem c4_counterexample :
    detect_and_export Conflict.warn
      ⟨⟨[], [], fun _ => "r", 0⟩,
        ⟨false, false, false, 0, [], Except.error (), true, ([], [])⟩,
        [], 32, 2⟩
      = Except.error PyError.valueError := rfl

/-- C4 (amended): the worker pool is created with `cpu_count() - 2` processes
and no floor: with parallelism at least 3 construction succeeds and the pool
has at least one worker, with parallelism at most 2 construction raises
`ValueError`; accordingly a successful `detect_and_export` run implies the
machine had at least 3 CPUs and used exactly `cpu_count() - 2` workers. -/
theorem c4_pool_size_no_floor (cpu : Nat) (env : RunEnv) :
    (3 ≤ cpu → pool_create ((cpu : Int) - 2) = Except.ok (cpu - 2) ∧ 1 ≤ cpu - 2)
      ∧ (cpu ≤ 2 → pool_create ((cpu : Int) - 2) = Except.error PyError.valueError)
      ∧ (∀ chunks n, detect_and_export Conflict.warn env = Except.ok (chunks, n) →
          n = env.cpu_count - 2 ∧ 3 ≤ env.cpu_count) := by
  refine ⟨?_, ?_, ?_⟩
  · intro h3
    have hnl : ¬ ((cpu : Int) - 2 < 1) := by omega
    unfold pool_create
    rw [if_neg hnl]
    constructor
    · congr 1
      omega
    · omega
  · intro h2
    have hl : (cpu : Int) - 2 < 1 := by omega
    unfold pool_create
    rw [if_pos hl]
  · intro chunks n h
    unfold detect_and_export at h
    dsimp only at h
    by_cases hb : env.batch_size = 0
    · rw [if_pos hb] at h
      cases h
    · rw [if_neg hb] at h
      rcases hpc : pool_create ((env.cpu_count : Int) - 2) with e | n'
      · rcases hr : env.raw_paths with _ | ⟨a, as⟩ <;>
          rw [hr] at h <;> rw [hpc] at h <;> dsimp only at h <;> cases h
      · have hok : ¬ ((env.cpu_count : Int) - 2 < 1) := by
          by_contra hcon
          unfold pool_create at hpc
          rw [if_pos hcon] at hpc
          cases hpc
        have hn' : n' = ((env.cpu_count : Int) - 2).toNat := by
          unfold pool_create at hpc
          rw [if_neg hok] at hpc
          cases hpc
          rfl
        rcases hr : env.raw_paths with _ | ⟨a, as⟩ <;>
            rw [hr] at h <;> rw [hpc] at h <;> dsimp only at h <;>
            rcases h with ⟨⟩ <;>
          constructor <;> omega

/-- C8 witness: with a valid-looking cache whose deserialization fails and a
failing cache write, the embeddings are still the freshly computed ones. -/
theorem c8_witness :
    load_or_create_embeddings
        ⟨true, true, true, 5, [1], Except.error (), false,
          ([⟨"alice", 1, "png"⟩], [[0]])⟩
      = Except.ok ([⟨"alice", 1, "png"⟩], [[0]]) :=
  (c8_cache_errors_absorbed
    ⟨true, true, true, 5, [1], Except.error (), false,
      ([⟨"alice", 1, "png"⟩], [[0]])⟩).2.1 rfl

/-- C4 witness: the amended claim at parallelism 4 (pool of 2 workers) and
parallelism 2 (construction fails). -/
theorem c4_witness :
    (pool_create ((4 : Nat) - 2 : Int) = Except.ok (4 - 2) ∧ 1 ≤ 4 - 2)
      ∧ pool_create ((2 : Nat) - 2 : Int) = Except.error PyError.valueError :=
  ⟨(c4_pool_size_no_floor 4
      ⟨⟨[], [], fun _ => "r", 0⟩,
        ⟨false, false, false, 0, [], Except.error (), true, ([], [])⟩,
        [], 32, 4⟩).1 (by omega),
    (c4_pool_size_no_floor 2
      ⟨⟨[], [], fun _ => "r", 0⟩,
        ⟨false, false, false, 0, [], Except.error (), true, ([], [])⟩,
        [], 32, 2⟩).2.1 (by omega)⟩

/-- A destination written by none of the listed writes keeps its previous
content. -/
theorem apply_writes_untouched (ws : List (String × RawPath)) :
    ∀ (fs : String → Option RawPath) (d : String),
      (∀ e ∈ ws, e.1 ≠ d) → apply_writes fs ws d = fs d := by
  induction ws with
  | nil => intro fs d _; rfl
  | cons e tl ih =>
    intro fs d hne
    rcases e with ⟨d0, s0⟩
    have hd0 : d0 ≠ d := hne (d0, s0) (by simp)
    rw [apply_writes, ih _ d (fun e he => hne e (List.mem_cons_of_mem _ he))]
    simp [hd0, Ne.symm hd0]

/-- The last write to a destination determines its final content. -/
theorem apply_writes_last (ws1 : List (String × RawPath)) :
    ∀ (fs : String → Option RawPath) (d : String) (s : RawPath)
      (ws2 : List (String × RawPath)), (∀ e ∈ ws2, e.1 ≠ d) →
      apply_writes fs (ws1 ++ (d, s) :: ws2) d = some s := by
  induction ws1 with
  | nil =>
    intro fs d s ws2 hne
    rw [List.nil_append, apply_writes, apply_writes_untouched ws2 _ d hne]
    simp
  | cons e tl ih =>
    intro fs d s ws2 hne
    rcases e with ⟨d0, s0⟩
    rw [List.cons_append, apply_writes]
    exact ih _ d s ws2 hne

/-- C10: the output location of an exported image is `write_f/class/basename`
— it depends only on the assigned class and the image file's basename, not on
the rest of the input path; every write `export` emits has this shape; and
when an earlier and a later write target the same destination (same class,
equal basenames) with no later write to it, the later image is the final
content of the file — it overwrites the earlier one. -/
theorem c10_export_overwrites (write_f cls : String) (p q : RawPath)
    (hbase : p.base = q.base) :
    dest_of write_f cls p = dest_of write_f cls q
      ∧ (∀ (fs : String → Option RawPath) (ws1 ws2 ws3 : List (String × RawPath)),
          (∀ e ∈ ws3, e.1 ≠ dest_of write_f cls q) →
          apply_writes fs
            ((ws1 ++ (dest_of write_f cls p, p) :: ws2)
              ++ (dest_of write_f cls q, q) :: ws3)
            (dest_of write_f cls q) = some q)
      ∧ (∀ (embs le : List Emb) (lp : List LabeledPath) (paths : List RawPath)
          (thr2 : ℚ) (outws : List (String × RawPath)),
          export_images embs lp le paths write_f thr2 = Except.ok outws →
          ∀ e ∈ outws, ∃ c, e.1 = dest_of write_f c e.2) := by
  have hdest : dest_of write_f cls p = dest_of write_f cls q := by
    unfold dest_of
    rw [hbase]
  refine ⟨hdest, ?_, ?_⟩
  · intro fs ws1 ws2 ws3 hne
    exact apply_writes_last (ws1 ++ (dest_of write_f cls p, p) :: ws2) fs
      (dest_of write_f cls q) q ws3 hne
  · intro embs le lp paths thr2 outws hexp e hmem
    unfold export_images at hexp
    rcases hc : get_classes embs lp le thr2 with er | classes
    · rw [hc] at hexp
      cases hexp
    · rw [hc] at hexp
      dsimp only at hexp
      rcases hexp with ⟨⟩
      rcases List.mem_filterMap.mp hmem with ⟨cp, _, hcp⟩
      rcases cp with ⟨oc, src⟩
      rcases oc with _ | c
      · cases hcp
      · dsimp only at hcp
        rcases hcp with ⟨⟩
        exact ⟨c, rfl⟩

/-- C10 witness: two inputs with different directories but the same basename
and class share a destination, and the later write is the final content. -/
theorem c10_witness :
    dest_of "out" "alice" ⟨["a"], "x.png"⟩
        = dest_of "out" "alice" ⟨["b", "c"], "x.png"⟩
      ∧ apply_writes (fun _ => none)
          (([] ++ (dest_of "out" "alice" ⟨["a"], "x.png"⟩, ⟨["a"], "x.png"⟩) :: [])
            ++ (dest_of "out" "alice" ⟨["b", "c"], "x.png"⟩,
                ⟨["b", "c"], "x.png"⟩) :: [])
          (dest_of "out" "alice" ⟨["b", "c"], "x.png"⟩)
        = some ⟨["b", "c"], "x.png"⟩ :=
  ⟨(c10_export_overwrites "out" "alice" ⟨["a"], "x.png"⟩ ⟨["b", "c"], "x.png"⟩ rfl).1,
    (c10_export_overwrites "out" "alice" ⟨["a"], "x.png"⟩ ⟨["b", "c"], "x.png"⟩ rfl).2.1
      (fun _ => none) [] [] [] (by simp)⟩

end FSFC
